import Mathlib

/-!
Verification of the org-structure post-processing pipeline.

The development shallowly embeds the TypeScript sources
`src/post-processing/post-process.ts` (cleanTeamName, areNamesSimilar,
chooseCanonicalName) and `src/post-processing/process-org-data.ts`
(findLongestCommonPrefix, groupByPrefix, deduplicateSimilarKeys,
processOrgData) into Lean.

Modelling conventions:
- JS strings are Lean `String`s; all operations are carried out on the
  underlying `List Char` (`String.data`), so every definition is
  structurally recursive and evaluates by kernel reduction.
- JS objects (`OrgNode = {[key: string]: OrgNode}`) are insertion-ordered
  association lists `List (String × OrgNode)`; `obj[k] = v` is
  "update in place if present, else append", `Object.assign` folds that
  over the source, `for ... in` iterates in insertion order.
- `String.localeCompare` and the default `Array.sort` comparator are
  modelled as code-point lexicographic comparison.
- The float test `minLength / maxLength >= 0.7` is modelled exactly as
  `10 * minLength ≥ 7 * maxLength` (for string lengths far below 2^50 the
  two agree, since the nearest double to `min/max` is within 2^-50 of the
  rational value while distinct rationals with these denominators differ
  from 7/10 by far more).
- `groupByPrefix` does not terminate on all inputs (this is proved below),
  so it and everything calling it take a fuel argument; `none` means the
  fuel ran out, i.e. the JS computation has not finished within that
  recursion budget.
-/

/-! ### Character-level helpers -/

/-- The whitespace class of JS `\s`, `String.prototype.trim`. -/
def isJsSpace (c : Char) : Bool :=
  c == ' ' || c == '\t' || c == '\n' || c == '\r' || c == '\x0b' || c == '\x0c' ||
  c.toNat == 0xA0 || c.toNat == 0x1680 ||
  (decide (0x2000 ≤ c.toNat) && decide (c.toNat ≤ 0x200A)) ||
  c.toNat == 0x2028 || c.toNat == 0x2029 || c.toNat == 0x202F ||
  c.toNat == 0x205F || c.toNat == 0x3000 || c.toNat == 0xFEFF

/-- ASCII lower-case letter. -/
def isAsciiLowerAlpha (c : Char) : Bool := decide ('a' ≤ c) && decide (c ≤ 'z')

/-- ASCII upper-case letter. -/
def isAsciiUpperAlpha (c : Char) : Bool := decide ('A' ≤ c) && decide (c ≤ 'Z')

/-- ASCII digit. -/
def isAsciiDigitCh (c : Char) : Bool := decide ('0' ≤ c) && decide (c ≤ '9')

/-- The JS character class `[a-zA-Z0-9]`. -/
def isAsciiAlnum (c : Char) : Bool :=
  isAsciiLowerAlpha c || isAsciiUpperAlpha c || isAsciiDigitCh c

/-- The JS word-character class `\w` = `[A-Za-z0-9_]`. -/
def isWordChar (c : Char) : Bool := isAsciiAlnum c || c == '_'

/-- ASCII-range model of `String.prototype.toLowerCase` applied per character. -/
def asciiLower (c : Char) : Char :=
  if isAsciiUpperAlpha c then Char.ofNat (c.toNat + 32) else c

/-- ASCII-range model of `String.prototype.toUpperCase` applied per character. -/
def asciiUpper (c : Char) : Char :=
  if isAsciiLowerAlpha c then Char.ofNat (c.toNat - 32) else c

/-! ### List-of-characters string operations -/

/-- Model of `String.prototype.trim`: drop JS whitespace at both ends. -/
def trimList (cs : List Char) : List Char :=
  ((cs.dropWhile isJsSpace).reverse.dropWhile isJsSpace).reverse

/-- Rebuild a `String` from characters. -/
def ofChars (cs : List Char) : String := String.mk cs

/-- Trim a string (JS `s.trim()`). -/
def trimStr (s : String) : String := ofChars (trimList s.data)

/-- Does `p` occur at the head of `l`? (helper for substring search). -/
def listHasPre : List Char → List Char → Bool
  | [], _ => true
  | _ :: _, [] => false
  | a :: ps, b :: ls => a == b && listHasPre ps ls

/-- JS `hay.includes(needle)`: contiguous-substring test. -/
def listHasSub (needle : List Char) : List Char → Bool
  | [] => needle.isEmpty
  | c :: rest => listHasPre needle (c :: rest) || listHasSub needle rest

/-- JS `hay.includes(needle)` on strings. -/
def strIncludes (hay needle : String) : Bool := listHasSub needle.data hay.data

/-- JS `a.startsWith(b)` on strings. -/
def strStartsWith (a b : String) : Bool := listHasPre b.data a.data

/-- Code-point lexicographic `≤` on character lists (models the UTF-16
code-unit comparison of the default `Array.sort` and `localeCompare`). -/
def charsLe : List Char → List Char → Bool
  | [], _ => true
  | _ :: _, [] => false
  | a :: as, b :: bs => if a = b then charsLe as bs else decide (a < b)

/-- Lexicographic `≤` on strings. -/
def strLe (a b : String) : Bool := charsLe a.data b.data

/-- Length of the common prefix of two character lists. -/
def commonLen : List Char → List Char → Nat
  | a :: as, b :: bs => if a = b then commonLen as bs + 1 else 0
  | _, _ => 0

/-- JS `String.prototype.lastIndexOf` for a single character, -1 if absent. -/
def lastIdxAux (c : Char) : List Char → Nat → Int → Int
  | [], _, best => best
  | d :: rest, i, best => lastIdxAux c rest (i + 1) (if d = c then Int.ofNat i else best)

/-- JS `s.lastIndexOf(c)`. -/
def lastIdx (c : Char) (l : List Char) : Int := lastIdxAux c l 0 (-1)

/-- Insert one string into a lexicographically sorted list (JS default sort). -/
def insOneStr (x : String) : List String → List String
  | [] => [x]
  | y :: ys => if strLe x y then x :: y :: ys else y :: insOneStr x ys

/-- JS `array.sort()` with the default (lexicographic) comparator. -/
def sortStrs : List String → List String
  | [] => []
  | x :: xs => insOneStr x (sortStrs xs)

/-! ### post-process.ts : normalizeForComparison, areNamesSimilar,
chooseCanonicalName -/

/-- The function `normalizeForComparison`: lowercase, then delete every character that is
not an ASCII letter or digit, then trim. -/
def normalizeForComparison (name : String) : String :=
  ofChars (trimList ((name.data.map asciiLower).filter
    (fun c => isAsciiLowerAlpha c || isAsciiDigitCh c)))

/-- The function `areNamesSimilar` from post-process.ts. -/
def areNamesSimilar (name1 name2 : String) : Bool :=
  let norm1 := normalizeForComparison name1
  let norm2 := normalizeForComparison name2
  if norm1 = norm2 then true
  else if strIncludes norm1 norm2 || strIncludes norm2 norm1 then
    let minLength := min norm1.length norm2.length
    let maxLength := max norm1.length norm2.length
    decide (10 * minLength ≥ 7 * maxLength)
  else false

/-- The sort comparator of `chooseCanonicalName`: descending string length,
ties broken by ascending lexicographic order (model of `localeCompare`). -/
def canonLe (a b : String) : Bool :=
  if a.length = b.length then strLe a b else decide (b.length < a.length)

/-- Relation form of `canonLe`, for `List.insertionSort`. -/
def CanonR (a b : String) : Prop := canonLe a b = true

instance : DecidableRel CanonR := fun a b => inferInstanceAs (Decidable (canonLe a b = true))

/-- The function `chooseCanonicalName` from post-process.ts: sort by descending length,
ties by ascending lexicographic order, and pick the first element. -/
def chooseCanonicalName (names : List String) : String :=
  match names with
  | [] => ""
  | [x] => x
  | _ :: _ :: _ => (List.insertionSort CanonR names).headD ""

/-! ### post-process.ts : cleanTeamName -/

/-- Step 2 of `cleanTeamName`: smart single quotes (U+2018/U+2019) become an
ASCII apostrophe. -/
def mapSmartSingle (c : Char) : Char :=
  if c.toNat = 0x2018 ∨ c.toNat = 0x2019 then '\'' else c

/-- Step 2: smart double quotes (U+201C/U+201D), which are deleted. -/
def isSmartDouble (c : Char) : Bool := c.toNat == 0x201C || c.toNat == 0x201D

/-- Step 2: en dash and em dash become '-'. -/
def mapDashes (c : Char) : Char :=
  if c.toNat = 0x2013 ∨ c.toNat = 0x2014 then '-' else c

/-- Step 2: the ellipsis character expands to three dots. -/
def expandEllipsis (c : Char) : List Char :=
  if c.toNat = 0x2026 then ['.', '.', '.'] else [c]

/-- A straight quote character, for `replace(/^["']|["']$/g, '')`. -/
def isQuoteCh (c : Char) : Bool := c == '"' || c == '\''

/-- Step 2: remove one leading and one trailing straight quote. -/
def stripWrapQuotes (cs : List Char) : List Char :=
  let cs1 :=
    match cs with
    | c :: rest => if isQuoteCh c then rest else c :: rest
    | [] => []
  match cs1.reverse with
  | c :: rest => if isQuoteCh c then rest.reverse else cs1
  | [] => cs1

/-- Step 2: characters deleted by the control/private-use/specials
replacements (`` lies inside U+E000–U+F8FF). -/
def isRemovedUnicode (c : Char) : Bool :=
  c.toNat ≤ 0x1F || (decide (0x7F ≤ c.toNat) && decide (c.toNat ≤ 0x9F)) ||
  (decide (0xE000 ≤ c.toNat) && decide (c.toNat ≤ 0xF8FF)) ||
  (decide (0xFFF0 ≤ c.toNat) && decide (c.toNat ≤ 0xFFFF))

/-- Step 2: `replace(/\s+/g, ' ')`; the flag records whether the previous
character was whitespace. -/
def collapseWsGo (prevSpace : Bool) : List Char → List Char
  | [] => []
  | c :: rest =>
    if isJsSpace c then
      if prevSpace then collapseWsGo true rest
      else ' ' :: collapseWsGo true rest
    else c :: collapseWsGo false rest

/-- Step 2: collapse whitespace runs to single spaces. -/
def collapseWs (cs : List Char) : List Char := collapseWsGo false cs

/-- Steps 3 and 8: `replace(/'s$/g, '')`. -/
def stripAposS (cs : List Char) : List Char :=
  match cs.reverse with
  | 's' :: q :: rest => if q = '\'' then rest.reverse else cs
  | _ => cs

/-- The class `[,.!]` of step 4. -/
def isPunctCDE (c : Char) : Bool := c == ',' || c == '.' || c == '!'

/-- Step 4: `replace(/[,.!]+\)*$/g, '')`: a non-empty run of `,`/`.`/`!`
followed by a possibly empty run of `)` at the end. -/
def stripTrailPunctParens (cs : List Char) : List Char :=
  let r := cs.reverse
  let r1 := r.dropWhile (fun c => c == ')')
  let r2 := r1.dropWhile isPunctCDE
  if r2.length < r1.length then r2.reverse else cs

/-- Step 5's pattern `/^[a-zA-Z0-9]{2}$/`. -/
def isTwoAlnum (cs : List Char) : Bool :=
  match cs with
  | [a, b] => isAsciiAlnum a && isAsciiAlnum b
  | _ => false

/-- The class `[A-Z&]` of step 6. -/
def isAcroCh (c : Char) : Bool := isAsciiUpperAlpha c || c == '&'

/-- Step 6: `replace(/\s\([A-Z&]+\)$/, '')`: a trailing parenthesized
all-caps/ampersand acronym preceded by a whitespace character. -/
def stripParenAcronym (cs : List Char) : List Char :=
  match cs.reverse with
  | ')' :: rest =>
    let acro := rest.takeWhile isAcroCh
    let rest2 := rest.dropWhile isAcroCh
    match rest2 with
    | '(' :: sp :: rest3 =>
      if acro.length ≥ 1 ∧ isJsSpace sp then rest3.reverse else cs
    | _ => cs
  | _ => cs

/-- Step 6b: `replace(/\)+$/g, '')`. -/
def stripTrailParens (cs : List Char) : List Char :=
  (cs.reverse.dropWhile (fun c => c == ')')).reverse

/-- Step 7: the organizational suffix words. -/
def orgSuffixWords : List (List Char) :=
  ["team", "group", "org", "organization", "department", "division"].map String.data

/-- Does `cs` end, case-insensitively, with a whitespace character followed
by the word `w`? (One alternative of `/\s(team|...)$/i`.) -/
def endsWithSuffixWord (cs w : List Char) : Bool :=
  let r := (cs.map asciiLower).reverse
  listHasPre w.reverse r &&
    (match r.drop w.length with
     | sp :: _ => isJsSpace sp
     | [] => false)

/-- Step 7: `replace(/\s(team|group|org|organization|department|division)$/i, '')`. -/
def stripOrgSuffix (cs : List Char) : List Char :=
  match orgSuffixWords.find? (fun w => endsWithSuffixWord cs w) with
  | some w => cs.take (cs.length - (w.length + 1))
  | none => cs

/-- The class `[,.!)"]` of step 9. -/
def isPunctFinal (c : Char) : Bool :=
  c == ',' || c == '.' || c == '!' || c == ')' || c == '"'

/-- Step 9: `replace(/[,.!)"]+$/g, '')`. -/
def stripTrailFinalPunct (cs : List Char) : List Char :=
  (cs.reverse.dropWhile isPunctFinal).reverse

/-- Step 11: transform one `\w\S*` token: a token equal to its own
upper-casing is kept, otherwise the first character is capitalized and the
rest lower-cased. -/
def transformTok (tok : List Char) : List Char :=
  if tok.map asciiUpper = tok then tok
  else
    match tok with
    | [] => []
    | c :: rest => asciiUpper c :: rest.map asciiLower

/-- Step 11: title-case every `\w\S*` token; `acc` holds the reversed
characters of the token currently being scanned. -/
def titleGo (acc : List Char) : List Char → List Char
  | [] => transformTok acc.reverse
  | c :: rest =>
    if acc.isEmpty then
      if isWordChar c then titleGo [c] rest
      else c :: titleGo [] rest
    else
      if isJsSpace c then transformTok acc.reverse ++ c :: titleGo [] rest
      else titleGo (c :: acc) rest

/-- Step 11: `replace(/\w\S*/g, titleCaseOrKeepAcronym)`. -/
def titleCase (cs : List Char) : List Char := titleGo [] cs

/-- The function `cleanTeamName` from post-process.ts; `none` models the
REJECT signal (`null`). -/
def cleanTeamName (name : String) : Option String :=
  let s1 := trimList name.data
  let s2a := s1.map mapSmartSingle
  let s2b := s2a.filter (fun c => !isSmartDouble c)
  let s2c := s2b.map mapDashes
  let s2d := s2c.flatMap expandEllipsis
  let s2e := stripWrapQuotes s2d
  let s2f := s2e.filter (fun c => !isRemovedUnicode c)
  let s2g := trimList (collapseWs s2f)
  let s3 := trimList (stripAposS s2g)
  let s4 := trimList (stripTrailPunctParens s3)
  if s4.length ≤ 2 ∧ isTwoAlnum s4 = false then none
  else
    let s6 := trimList (stripParenAcronym s4)
    let s6b := trimList (stripTrailParens s6)
    let s7 := trimList (stripOrgSuffix s6b)
    let s8 := trimList (stripAposS s7)
    let s9 := trimList (stripTrailFinalPunct s8)
    if s9.length = 0 then none
    else some (ofChars (titleCase s9))

/-! ### process-org-data.ts : the OrgNode object model -/

/-- Model of `type OrgNode = {[key: string]: OrgNode}`: a JS object as an
insertion-ordered association list. -/
inductive OrgNode where
  | node : List (String × OrgNode) → OrgNode

/-- The entry list of an object. -/
def OrgNode.entries : OrgNode → List (String × OrgNode)
  | .node es => es

/-- JS `Object.keys`. -/
def OrgNode.keys (n : OrgNode) : List String := n.entries.map Prod.fst

/-- JS `obj[k]` for reading (`undefined` is modelled as the empty object;
every call below reads a key that is present). -/
def lookupNode (entries : List (String × OrgNode)) (k : String) : OrgNode :=
  match entries.find? (fun p => decide (p.1 = k)) with
  | some p => p.2
  | none => OrgNode.node []

/-- JS `obj[k] = v`: update in place when the key is present, else append. -/
def objUpsert (entries : List (String × OrgNode)) (k : String) (v : OrgNode) :
    List (String × OrgNode) :=
  if entries.any (fun p => decide (p.1 = k)) then
    entries.map (fun p => if p.1 = k then (p.1, v) else p)
  else entries ++ [(k, v)]

/-- JS `Object.assign(target, src)` on the object model. -/
def objectAssign (target src : List (String × OrgNode)) : List (String × OrgNode) :=
  src.foldl (fun acc p => objUpsert acc p.1 p.2) target

/-! ### process-org-data.ts : findLongestCommonPrefix -/

/-- The function `findLongestCommonPrefix` from process-org-data.ts. -/
def findLongestCommonPrefix (strings : List String) : String :=
  if strings.length ≤ 1 then ""
  else
    let sorted := sortStrs strings
    let first := sorted.headD ""
    let lastS := sorted.getLastD ""
    let i := commonLen first.data lastS.data
    let pfx := trimList (first.data.take i)
    if pfx.length ≥ 2 then
      if decide (i < first.data.length) && (first.data.getD i '\x00' == ' ') then
        ofChars pfx
      else
        let lastChar := pfx.getLastD '\x00'
        if lastChar = ' ' ∨ lastChar = '/' ∨ lastChar = '-' then ofChars (trimList pfx)
        else if pfx.all (fun c => isAsciiUpperAlpha c || isAsciiDigitCh c || c == '/') then
          ofChars pfx
        else
          let lastBoundary := max (max (lastIdx ' ' pfx) (lastIdx '/' pfx)) (lastIdx '-' pfx)
          if lastBoundary > 0 then ofChars (trimList (pfx.take (lastBoundary.toNat + 1)))
          else ""
    else ""

/-! ### process-org-data.ts : groupByPrefix -/

/-- One step of the scan of `groupByPrefix` over `keys`, maintaining the
insertion-ordered `prefixGroups` map and the `ungrouped` array. -/
def buildGroupsStep (keys : List String) (minGroupSize : Nat)
    (st : List (String × List String) × List String) (key : String) :
    List (String × List String) × List String :=
  let pgs := st.1
  let ung := st.2
  match pgs.find? (fun pg => strStartsWith key pg.1) with
  | some pg => (pgs.map (fun q => if q.1 = pg.1 then (q.1, q.2 ++ [key]) else q), ung)
  | none =>
    let potentialGroup := keys.filter (fun k =>
      if k = key then true
      else
        let pfx := findLongestCommonPrefix [key, k]
        decide (pfx.length ≥ 3) && strStartsWith k pfx)
    if potentialGroup.length ≥ minGroupSize then
      let pfx := findLongestCommonPrefix potentialGroup
      if pfx = "" then (pgs, ung ++ [key])
      else if pgs.any (fun q => decide (q.1 = pfx)) then (pgs, ung ++ [key])
      else (pgs ++ [(pfx, potentialGroup)], ung)
    else (pgs, ung ++ [key])

/-- The full scan of `groupByPrefix` building prefix groups. -/
def buildGroups (keys : List String) (minGroupSize : Nat) :
    List (String × List String) × List String :=
  keys.foldl (buildGroupsStep keys minGroupSize) ([], [])

/-- Child renaming inside a prefix group: drop the prefix, trim, and fall
back to the full key when fewer than 2 characters remain. -/
def stripChildName (pfx key : String) : String :=
  let childName := trimStr (ofChars (key.data.drop pfx.length))
  if childName.length < 2 then key else childName

/-- Build the children object of one prefix group
(`groupedChildren[childName] = groupByPrefix(node[key], minGroupSize)`);
`g` is the recursive call at one fuel less. -/
def buildGroupedChildren (g : OrgNode → Option OrgNode)
    (entries : List (String × OrgNode)) (pfx : String) :
    List String → List (String × OrgNode) → Option (List (String × OrgNode))
  | [], acc => some acc
  | key :: rest, acc =>
    match g (lookupNode entries key) with
    | none => none
    | some gc =>
      buildGroupedChildren g entries pfx rest (objUpsert acc (stripChildName pfx key) gc)

/-- Build the result entries from the registered prefix groups; a group
below the threshold dissolves into the ungrouped list. -/
def buildFromGroups (g : OrgNode → Option OrgNode)
    (entries : List (String × OrgNode)) (minGroupSize : Nat) :
    List (String × List String) → List (String × OrgNode) → List String →
    Option (List (String × OrgNode) × List String)
  | [], res, ung => some (res, ung)
  | (pfx, group) :: rest, res, ung =>
    if group.length ≥ minGroupSize then
      match buildGroupedChildren g entries pfx group [] with
      | none => none
      | some groupedChildren =>
        match g (OrgNode.node groupedChildren) with
        | none => none
        | some gres =>
          buildFromGroups g entries minGroupSize rest (objUpsert res (trimStr pfx) gres) ung
    else buildFromGroups g entries minGroupSize rest res (ung ++ group)

/-- Appending the ungrouped keys
(`result[key] = groupByPrefix(node[key], minGroupSize)`). -/
def addUngrouped (g : OrgNode → Option OrgNode)
    (entries : List (String × OrgNode)) :
    List String → List (String × OrgNode) → Option (List (String × OrgNode))
  | [], res => some res
  | key :: rest, res =>
    match g (lookupNode entries key) with
    | none => none
    | some r => addUngrouped g entries rest (objUpsert res key r)

/-- The function `groupByPrefix` from process-org-data.ts, with an explicit
recursion budget `fuel` (`none` means the budget is exhausted; the JS
original can recurse forever, see the divergence theorems below). -/
def groupByPrefix : Nat → Nat → OrgNode → Option OrgNode
  | 0, _, _ => none
  | fuel + 1, minGroupSize, OrgNode.node entries =>
    let keys := entries.map Prod.fst
    if keys.length < minGroupSize then some (OrgNode.node entries)
    else
      let st := buildGroups keys minGroupSize
      match buildFromGroups (groupByPrefix fuel minGroupSize) entries minGroupSize st.1 [] st.2 with
      | none => none
      | some resUng =>
        match addUngrouped (groupByPrefix fuel minGroupSize) entries resUng.2 resUng.1 with
        | none => none
        | some res2 => some (OrgNode.node res2)

/-! ### process-org-data.ts : deduplicateSimilarKeys -/

/-- The inner scan of `deduplicateSimilarKeys`, collecting the similarity
class of `key` and updating the `processed` set. -/
def collectSimilar (key : String) (allKeys : List String) (processed : List String) :
    List String × List String :=
  allKeys.foldl (fun st otherKey =>
    if key ≠ otherKey ∧ ¬ st.2.contains otherKey ∧ areNamesSimilar key otherKey then
      (st.1 ++ [otherKey], st.2 ++ [otherKey])
    else st) ([key], processed)

/-- The outer loop of `deduplicateSimilarKeys`; `d` performs the recursive
call on the merged children. -/
def dedupGo (d : List (String × OrgNode) → Option (List (String × OrgNode)))
    (entries : List (String × OrgNode)) :
    List String → List String → List (String × OrgNode) →
    Option (List (String × OrgNode))
  | [], _, acc => some acc
  | key :: rest, processed, acc =>
    if processed.contains key then dedupGo d entries rest processed acc
    else
      let collected := collectSimilar key (entries.map Prod.fst) processed
      let similarKeys := collected.1
      let processed2 := collected.2 ++ [key]
      let canonicalName := chooseCanonicalName similarKeys
      let merged := similarKeys.foldl
        (fun m sk => objectAssign m (lookupNode entries sk).entries) []
      match d merged with
      | none => none
      | some mergedChildren =>
        dedupGo d entries rest processed2
          (objUpsert acc canonicalName (OrgNode.node mergedChildren))

/-- The function `deduplicateSimilarKeys` from process-org-data.ts
(fuelled: the JS recursion is on a freshly merged object, not on a
structural subterm). -/
def deduplicateSimilarKeys : Nat → List (String × OrgNode) →
    Option (List (String × OrgNode))
  | 0, _ => none
  | fuel + 1, entries =>
    if entries.isEmpty then some entries
    else dedupGo (deduplicateSimilarKeys fuel) entries (entries.map Prod.fst) [] []

/-! ### process-org-data.ts : processOrgData -/

/-- The cleaning loop of `processOrgData`; `p` is the recursive call on a
child subtree. The JS truthiness test `if (cleanedChildren)` always
succeeds because the recursive call returns an object, never `null`. -/
def cleanLoop (p : OrgNode → Option OrgNode) :
    List (String × OrgNode) → List (String × OrgNode) →
    Option (List (String × OrgNode))
  | [], acc => some acc
  | (key, child) :: rest, acc =>
    match cleanTeamName key with
    | none => cleanLoop p rest acc
    | some cleanedKey =>
      match p child with
      | none => none
      | some cleanedChildren =>
        let acc2 :=
          if acc.any (fun q => decide (q.1 = cleanedKey)) then
            acc.map (fun q =>
              if q.1 = cleanedKey then
                (q.1, OrgNode.node (objectAssign q.2.entries cleanedChildren.entries))
              else q)
          else acc ++ [(cleanedKey, cleanedChildren)]
        cleanLoop p rest acc2

/-- The function `processOrgData` from process-org-data.ts (fuelled). -/
def processOrgData : Nat → OrgNode → Option OrgNode
  | 0, _ => none
  | fuel + 1, OrgNode.node entries =>
    match cleanLoop (processOrgData fuel) entries [] with
    | none => none
    | some cleanedNode =>
      match deduplicateSimilarKeys (fuel + 1) cleanedNode with
      | none => none
      | some deduplicated =>
        match groupByPrefix (fuel + 1) 3 (OrgNode.node deduplicated) with
        | none => none
        | some grouped =>
          some (if grouped.entries.length > 0 then grouped else OrgNode.node [])

/-! ### Order-theoretic facts about the comparator of chooseCanonicalName -/

/-- Strings with equal character lists are equal. -/
theorem stringDataEq {a b : String} (h : a.data = b.data) : a = b := by
  cases a
  cases b
  exact congrArg String.mk h

/-- Totality of the lexicographic comparison. -/
theorem charsLe_total : ∀ a b : List Char, charsLe a b = true ∨ charsLe b a = true := by
  intro a
  induction a with
  | nil => intro b; left; rfl
  | cons c cs ih =>
    intro b
    cases b with
    | nil => right; rfl
    | cons d ds =>
      by_cases h : c = d
      · subst h
        rcases ih ds with h1 | h1
        · left; simp only [charsLe, if_pos rfl]; exact h1
        · right; simp only [charsLe, if_pos rfl]; exact h1
      · have h' : ¬ d = c := fun hh => h hh.symm
        rcases lt_or_gt_of_ne h with hlt | hgt
        · left; simp only [charsLe, if_neg h]; exact decide_eq_true hlt
        · right; simp only [charsLe, if_neg h']; exact decide_eq_true hgt

/-- Transitivity of the lexicographic comparison. -/
theorem charsLe_trans : ∀ a b c : List Char,
    charsLe a b = true → charsLe b c = true → charsLe a c = true := by
  intro a
  induction a with
  | nil => intro b c _ _; rfl
  | cons x xs ih =>
    intro b c hab hbc
    cases b with
    | nil => simp [charsLe] at hab
    | cons y ys =>
      cases c with
      | nil => simp [charsLe] at hbc
      | cons z zs =>
        by_cases hxy : x = y
        · subst hxy
          by_cases hyz : x = z
          · subst hyz
            simp only [charsLe, if_pos rfl] at hab hbc ⊢
            exact ih ys zs hab hbc
          · simp only [charsLe, if_pos rfl] at hab
            simp only [charsLe, if_neg hyz] at hbc ⊢
            exact hbc
        · by_cases hyz : y = z
          · subst hyz
            simp only [charsLe, if_neg hxy] at hab ⊢
            exact hab
          · simp only [charsLe, if_neg hxy] at hab
            simp only [charsLe, if_neg hyz] at hbc
            have hxz : x < z := lt_trans (of_decide_eq_true hab) (of_decide_eq_true hbc)
            have hxz' : ¬ x = z := ne_of_lt hxz
            simp only [charsLe, if_neg hxz']
            exact decide_eq_true hxz

/-- Antisymmetry of the lexicographic comparison. -/
theorem charsLe_antisymm : ∀ a b : List Char,
    charsLe a b = true → charsLe b a = true → a = b := by
  intro a
  induction a with
  | nil =>
    intro b _ hba
    cases b with
    | nil => rfl
    | cons d ds => simp [charsLe] at hba
  | cons c cs ih =>
    intro b hab hba
    cases b with
    | nil => simp [charsLe] at hab
    | cons d ds =>
      by_cases h : c = d
      · subst h
        simp only [charsLe, if_pos rfl] at hab hba
        rw [ih ds hab hba]
      · have h' : ¬ d = c := fun hh => h hh.symm
        simp only [charsLe, if_neg h] at hab
        simp only [charsLe, if_neg h'] at hba
        exact absurd (lt_trans (of_decide_eq_true hab) (of_decide_eq_true hba))
          (lt_irrefl c)

instance : IsTotal String CanonR := by
  constructor
  intro a b
  unfold CanonR canonLe
  by_cases h : a.length = b.length
  · rcases charsLe_total a.data b.data with h1 | h1
    · left; rw [if_pos h]; exact h1
    · right; rw [if_pos h.symm]; exact h1
  · have h' : ¬ b.length = a.length := fun hh => h hh.symm
    rcases Nat.lt_or_ge a.length b.length with hlt | hge
    · right; rw [if_neg h']; exact decide_eq_true hlt
    · left; rw [if_neg h]
      exact decide_eq_true (Nat.lt_of_le_of_ne hge (fun hh => h hh.symm))

instance : IsTrans String CanonR := by
  constructor
  intro a b c hab hbc
  unfold CanonR canonLe at hab hbc ⊢
  by_cases h1 : a.length = b.length
  · by_cases h2 : b.length = c.length
    · have h3 : a.length = c.length := h1.trans h2
      rw [if_pos h1] at hab
      rw [if_pos h2] at hbc
      rw [if_pos h3]
      exact charsLe_trans a.data b.data c.data hab hbc
    · rw [if_neg h2] at hbc
      have hcb : c.length < b.length := of_decide_eq_true hbc
      have h3 : ¬ a.length = c.length := by omega
      rw [if_neg h3]
      exact decide_eq_true (by omega)
  · rw [if_neg h1] at hab
    have hba : b.length < a.length := of_decide_eq_true hab
    by_cases h2 : b.length = c.length
    · have h3 : ¬ a.length = c.length := by omega
      rw [if_neg h3]
      exact decide_eq_true (by omega)
    · rw [if_neg h2] at hbc
      have hcb : c.length < b.length := of_decide_eq_true hbc
      have h3 : ¬ a.length = c.length := by omega
      rw [if_neg h3]
      exact decide_eq_true (by omega)

instance : IsAntisymm String CanonR := by
  constructor
  intro a b hab hba
  unfold CanonR canonLe at hab hba
  by_cases h : a.length = b.length
  · rw [if_pos h] at hab
    rw [if_pos h.symm] at hba
    exact stringDataEq (charsLe_antisymm a.data b.data hab hba)
  · have h' : ¬ b.length = a.length := fun hh => h hh.symm
    rw [if_neg h] at hab
    rw [if_neg h'] at hba
    have := of_decide_eq_true hab
    have := of_decide_eq_true hba
    omega

/-- The head of the sorted candidate list is what `chooseCanonicalName`
returns, in every case of its definition. -/
theorem chooseCanonicalName_eq_sortedHead (names : List String) :
    chooseCanonicalName names = (List.insertionSort CanonR names).headD "" := by
  match names with
  | [] => rfl
  | [x] => simp [chooseCanonicalName, List.insertionSort, List.orderedInsert]
  | a :: b :: rest => rfl

/-! ### Concrete trees used by the claims -/

/-- The end-to-end example input of the spec. -/
def aimlInput : OrgNode := .node
  [("AIML Infrastructure Teams", .node []),
   ("AIML Data Platform", .node []),
   ("AIML Engineering Efficiency", .node []),
   ("AIML Search Infrastructure", .node []),
   ("Design System", .node [])]

/-- The output `processOrgData` produces for `aimlInput`. -/
def aimlOutput : OrgNode := .node
  [("AIML", .node
      [("Infrastructure Teams", .node []),
       ("Data Platform", .node []),
       ("Engineering Efficiency", .node []),
       ("Search Infrastructure", .node [])]),
   ("Design System", .node [])]

/-- A sibling set exhibiting the child-renaming fallback of
`groupByPrefix`: the three labels share the boundary prefix "Frontend",
but stripping it from "FrontendX" leaves the single character "X", so that
child keeps its full original label. -/
def frontendXInput : OrgNode := .node
  [("Frontend Development", .node []), ("Frontend Design", .node []),
   ("FrontendX", .node [])]

/-- The output `groupByPrefix` produces for `frontendXInput`. -/
def frontendXOutput : OrgNode := .node
  [("Frontend", .node
      [("Development", .node []), ("Design", .node []),
       ("FrontendX", .node [])])]

/-- A sibling set on which the pipeline recurses forever: the three labels
survive cleaning and deduplication unchanged (the normalized length ratio
2/3 is below 0.7), share the qualifying all-caps prefix "A/B", and after
prefix-stripping every child name falls back to the full original key, so
the synthesized group's children are exactly the original sibling set. -/
def badEntries : List (String × OrgNode) :=
  [("A/B", .node []), ("A/B C", .node []), ("A/B D", .node [])]

/-- The same sibling set as a tree. -/
def slashFamily : OrgNode := OrgNode.node badEntries

/-- The key group that `groupByPrefix` registers under the prefix "A/B" on
`badEntries` (the scan first registers the filtered trio, then pushes the
second and third key again on their own iterations). -/
def slashGroup : List String := ["A/B", "A/B C", "A/B D", "A/B C", "A/B D"]

/-- C1: for the five-key example tree, processOrgData groups the four
AIML-prefixed labels under the synthesized parent "AIML" with the prefix
stripped from each child, and leaves the sibling "Design System" (with
empty children) unchanged. -/
theorem processOrgData_end_to_end_aiml :
    processOrgData 3 aimlInput = some aimlOutput := by
  rfl

/-- Helper for C2: the scan of `groupByPrefix` over the bad sibling set
registers exactly one group, "A/B", holding all three keys (two of them
twice), and leaves nothing ungrouped. -/
theorem buildGroups_on_badEntries :
    buildGroups (List.map Prod.fst badEntries) 3 = ([("A/B", slashGroup)], []) := rfl

/-- Helper for C2: with any `g` that maps the empty object to itself, the
children object synthesized for the "A/B" group is the bad sibling set
itself (every stripped child name falls back to the full key). -/
theorem buildGroupedChildren_on_badEntries (g : OrgNode → Option OrgNode)
    (hgE : g (OrgNode.node []) = some (OrgNode.node [])) :
    buildGroupedChildren g badEntries "A/B" slashGroup [] = some badEntries := by
  simp only [slashGroup, buildGroupedChildren,
    show lookupNode badEntries "A/B" = OrgNode.node [] from rfl,
    show lookupNode badEntries "A/B C" = OrgNode.node [] from rfl,
    show lookupNode badEntries "A/B D" = OrgNode.node [] from rfl, hgE]
  rfl

/-- Helper for C2: the result construction of `groupByPrefix` on the bad
sibling set reduces to the recursive call on that very same sibling set. -/
theorem buildFromGroups_on_badEntries (g : OrgNode → Option OrgNode)
    (hgE : g (OrgNode.node []) = some (OrgNode.node [])) :
    buildFromGroups g badEntries 3 [("A/B", slashGroup)] [] [] =
      (match g (OrgNode.node badEntries) with
       | none => none
       | some gres => some ([("A/B", gres)], ([] : List String))) := by
  simp only [buildFromGroups]
  rw [if_pos (by decide : slashGroup.length ≥ 3)]
  rw [buildGroupedChildren_on_badEntries g hgE]
  show (match g (OrgNode.node badEntries) with
        | none => none
        | some gres => some (objUpsert [] (trimStr "A/B") gres, ([] : List String))) = _
  cases hg : g (OrgNode.node badEntries) with
  | none => rfl
  | some gres => rfl

/-- Helper for C2: one fuel step on the bad sibling set only rearranges the
recursive call on the same sibling set, so if that call runs out of fuel so
does this one. -/
theorem groupByPrefix_badEntries_step (m : Nat)
    (ih : groupByPrefix (m + 1) 3 (OrgNode.node badEntries) = none) :
    groupByPrefix (m + 1 + 1) 3 (OrgNode.node badEntries) = none := by
  have hgE : groupByPrefix (m + 1) 3 (OrgNode.node []) = some (OrgNode.node []) := rfl
  simp only [groupByPrefix]
  rw [if_neg (by decide : ¬ (List.map Prod.fst badEntries).length < 3)]
  rw [show (buildGroups (List.map Prod.fst badEntries) 3).1 = [("A/B", slashGroup)] from rfl]
  rw [show (buildGroups (List.map Prod.fst badEntries) 3).2 = ([] : List String) from rfl]
  rw [buildFromGroups_on_badEntries (groupByPrefix (m + 1) 3) hgE]
  rw [ih]

/-- Helper for C2: `groupByPrefix` loops forever on the bad sibling set:
the synthesized "A/B" group's children are exactly the original sibling
set again, so no fuel suffices. -/
theorem groupByPrefix_diverges_aux :
    ∀ n, groupByPrefix n 3 (OrgNode.node badEntries) = none := by
  intro n
  induction n with
  | zero => rfl
  | succ m ih =>
    cases m with
    | zero => rfl
    | succ k => exact groupByPrefix_badEntries_step k ih

/-- C2: refuted — the pipeline does not terminate on every finite
well-formed tree. On the three-sibling input
{"A/B": {}, "A/B C": {}, "A/B D": {}} the JS `processOrgData` recurses
forever inside `groupByPrefix`; in the fuelled model, no recursion budget
ever produces a result. -/
theorem processOrgData_infinite_recursion :
    ∀ fuel, processOrgData fuel slashFamily = none := by
  intro fuel
  cases fuel with
  | zero => rfl
  | succ n =>
    cases n with
    | zero => rfl
    | succ k =>
      show processOrgData (k + 1 + 1) (OrgNode.node badEntries) = none
      simp only [processOrgData,
        show cleanLoop (processOrgData (k + 1)) badEntries [] = some badEntries from rfl,
        show deduplicateSimilarKeys (k + 1 + 1) badEntries = some badEntries from rfl,
        groupByPrefix_diverges_aux]

/-- C3 counterexample: `processOrgData` is not idempotent, not even up to
key ordering: {"A Team Group": {}} maps to {"A Team": {}}, which a second
pass maps to {"A": {}} (each pass strips one trailing organizational
suffix word), and the key sets {"A"} and {"A Team"} are not permutations
of each other. -/
theorem processOrgData_not_idempotent :
    processOrgData 2 (OrgNode.node [("A Team Group", OrgNode.node [])]) =
      some (OrgNode.node [("A Team", OrgNode.node [])]) ∧
    processOrgData 2 (OrgNode.node [("A Team", OrgNode.node [])]) =
      some (OrgNode.node [("A", OrgNode.node [])]) ∧
    ¬ (OrgNode.keys (OrgNode.node [("A", OrgNode.node [])])).Perm
        (OrgNode.keys (OrgNode.node [("A Team", OrgNode.node [])])) := by
  refine ⟨rfl, rfl, ?_⟩
  decide

/-- C3 (amended): idempotence fails in general (see
`processOrgData_not_idempotent`), but on the spec's end-to-end example the
output of `processOrgData` is a literal fixed point: applying the pipeline
a second time changes nothing. -/
theorem processOrgData_idempotent_on_aiml :
    processOrgData 3 aimlInput = some aimlOutput ∧
    processOrgData 3 aimlOutput = some aimlOutput :=
  ⟨rfl, rfl⟩

/-- C4: `areNamesSimilar a b` holds exactly when the normalized forms are
equal, or one normalized form is a contiguous substring of the other and
ten times the shorter normalized length is at least seven times the longer
(the exact-rational rendering of `min/max >= 0.7`); in particular the two
spec examples evaluate as stated. -/
theorem areNamesSimilar_iff :
    (∀ a b : String, areNamesSimilar a b = true ↔
      (normalizeForComparison a = normalizeForComparison b ∨
        ((strIncludes (normalizeForComparison a) (normalizeForComparison b) = true ∨
          strIncludes (normalizeForComparison b) (normalizeForComparison a) = true) ∧
         10 * min (normalizeForComparison a).length (normalizeForComparison b).length ≥
           7 * max (normalizeForComparison a).length (normalizeForComparison b).length))) ∧
    areNamesSimilar "3D Visual Merchandising" "3D/Visual Merchandising" = true ∧
    areNamesSimilar "GPU" "GPU Architecture Design Team" = false := by
  refine ⟨?_, rfl, rfl⟩
  intro a b
  simp only [areNamesSimilar]
  by_cases h1 : normalizeForComparison a = normalizeForComparison b
  · simp [h1]
  · rw [if_neg h1]
    by_cases h2 : (strIncludes (normalizeForComparison a) (normalizeForComparison b) ||
        strIncludes (normalizeForComparison b) (normalizeForComparison a)) = true
    · rw [if_pos h2]
      simp only [decide_eq_true_eq]
      constructor
      · intro hr
        right
        exact ⟨by simpa [Bool.or_eq_true] using h2, hr⟩
      · rintro (hc | ⟨_, hr⟩)
        · exact absurd hc h1
        · exact hr
    · rw [if_neg h2]
      simp only [Bool.or_eq_true] at h2
      push_neg at h2
      constructor
      · intro hf
        simp at hf
      · rintro (hc | ⟨hsub, _⟩)
        · exact absurd hc h1
        · rcases hsub with hs | hs
          · exact absurd hs h2.1
          · exact absurd hs h2.2

/-- C5: the five cleaning examples of the spec: "s" and ")" are rejected,
the two-letter acronym "AI" survives, "Engineering Team" loses its suffix
word, and "Technology Development Group (TDG)," loses the trailing comma,
the parenthesized acronym and the suffix word. -/
theorem cleanTeamName_examples :
    cleanTeamName "s" = none ∧
    cleanTeamName ")" = none ∧
    cleanTeamName "AI" = some "AI" ∧
    cleanTeamName "Engineering Team" = some "Engineering" ∧
    cleanTeamName "Technology Development Group (TDG)," = some "Technology Development" :=
  ⟨rfl, rfl, rfl, rfl, rfl⟩

/-- Helper for C6: an object assignment adds at most the assigned key to
the key set. -/
theorem objUpsert_fst_mem (es : List (String × OrgNode)) (k : String) (v : OrgNode) :
    ∀ x ∈ (objUpsert es k v).map Prod.fst, x ∈ es.map Prod.fst ∨ x = k := by
  intro x hx
  unfold objUpsert at hx
  by_cases h : es.any (fun p => decide (p.1 = k))
  · rw [if_pos h] at hx
    simp only [List.map_map, List.mem_map, Function.comp] at hx
    obtain ⟨p, hp, hfx⟩ := hx
    by_cases hc : p.1 = k
    · rw [if_pos hc] at hfx
      have hxp : x = p.1 := hfx.symm
      left
      rw [hxp]
      exact List.mem_map_of_mem Prod.fst hp
    · rw [if_neg hc] at hfx
      have hxp : x = p.1 := hfx.symm
      left
      rw [hxp]
      exact List.mem_map_of_mem Prod.fst hp
  · rw [if_neg h] at hx
    rw [List.map_append] at hx
    rcases List.mem_append.mp hx with h1 | h1
    · left; exact h1
    · right; simpa using h1

/-- Helper for C6: every key of the children object synthesized for a
prefix group is either a key of the starting accumulator or the
`stripChildName` renaming (prefix stripped and trimmed, falling back to
the full key below 2 characters) of a group member. -/
theorem buildGroupedChildren_labels (g : OrgNode → Option OrgNode)
    (entries : List (String × OrgNode)) (pfx : String) :
    ∀ (group : List String) (acc res : List (String × OrgNode)),
      buildGroupedChildren g entries pfx group acc = some res →
      ∀ q ∈ res, q.1 ∈ acc.map Prod.fst ++ group.map (stripChildName pfx) := by
  intro group
  induction group with
  | nil =>
    intro acc res h q hq
    simp only [buildGroupedChildren, Option.some.injEq] at h
    subst h
    simp only [List.map_nil, List.append_nil]
    exact List.mem_map_of_mem Prod.fst hq
  | cons k rest ih =>
    intro acc res h q hq
    simp only [buildGroupedChildren] at h
    cases hg : g (lookupNode entries k) with
    | none =>
      rw [hg] at h
      exact Option.noConfusion h
    | some gc =>
      rw [hg] at h
      have h2 := ih (objUpsert acc (stripChildName pfx k) gc) res h q hq
      rcases List.mem_append.mp h2 with h3 | h3
      · rcases objUpsert_fst_mem acc (stripChildName pfx k) gc q.1 h3 with h4 | h4
        · exact List.mem_append.mpr (Or.inl h4)
        · refine List.mem_append.mpr (Or.inr ?_)
          simp only [List.map_cons]
          exact List.mem_cons.mpr (Or.inl h4)
      · refine List.mem_append.mpr (Or.inr ?_)
        simp only [List.map_cons]
        exact List.mem_cons.mpr (Or.inr h3)

/-- Helper for C6: one step of the group-building scan never creates or
shrinks a registered group below the threshold. -/
theorem buildGroupsStep_preserves (keys : List String) (minGroupSize : Nat)
    (st : List (String × List String) × List String) (key : String)
    (h : ∀ q ∈ st.1, minGroupSize ≤ q.2.length) :
    ∀ q ∈ (buildGroupsStep keys minGroupSize st key).1, minGroupSize ≤ q.2.length := by
  intro q hq
  simp only [buildGroupsStep] at hq
  cases hf : st.1.find? (fun pg => strStartsWith key pg.1) with
  | some pg =>
    rw [hf] at hq
    simp only [List.mem_map] at hq
    obtain ⟨p, hp, hpq⟩ := hq
    by_cases hc : p.1 = pg.1
    · rw [if_pos hc] at hpq
      subst hpq
      simp only [List.length_append, List.length_cons, List.length_nil]
      have := h p hp
      omega
    · rw [if_neg hc] at hpq
      subst hpq
      exact h p hp
  | none =>
    rw [hf] at hq
    split_ifs at hq with h1 h2 h3
    · exact h q hq
    · exact h q hq
    · rcases List.mem_append.mp hq with h4 | h4
      · exact h q h4
      · have h5 : q = (findLongestCommonPrefix (keys.filter (fun k =>
            if k = key then true
            else
              decide ((findLongestCommonPrefix [key, k]).length ≥ 3) &&
                strStartsWith k (findLongestCommonPrefix [key, k]))),
          keys.filter (fun k =>
            if k = key then true
            else
              decide ((findLongestCommonPrefix [key, k]).length ≥ 3) &&
                strStartsWith k (findLongestCommonPrefix [key, k]))) := by
          simpa using h4
        rw [h5]
        exact h1
    · exact h q hq

/-- Helper for C6: every group registered by the scan of `groupByPrefix`
has at least `minGroupSize` members. -/
theorem buildGroups_aux (keys : List String) (minGroupSize : Nat) :
    ∀ (ks : List String) (st : List (String × List String) × List String),
      (∀ q ∈ st.1, minGroupSize ≤ q.2.length) →
      ∀ q ∈ (ks.foldl (buildGroupsStep keys minGroupSize) st).1, minGroupSize ≤ q.2.length := by
  intro ks
  induction ks with
  | nil => intro st h; exact h
  | cons k rest ih =>
    intro st h
    simp only [List.foldl_cons]
    exact ih (buildGroupsStep keys minGroupSize st k)
      (buildGroupsStep_preserves keys minGroupSize st k h)

/-- Helper for C6: no group below the threshold is ever registered. -/
theorem buildGroups_min_size (keys : List String) (minGroupSize : Nat) :
    ∀ q ∈ (buildGroups keys minGroupSize).1, minGroupSize ≤ q.2.length :=
  buildGroups_aux keys minGroupSize keys ([], [])
    (fun q hq => absurd hq (List.not_mem_nil q))

/-- C6 counterexample: the claim's "each child relabeled with that prefix
stripped" is false of the code. On {"Frontend Development", "Frontend
Design", "FrontendX"} the three siblings share the valid boundary prefix
"Frontend" and are grouped under it, but the child coming from "FrontendX"
is not relabeled to the stripped remainder "X": the remainder is shorter
than 2 characters, so the child keeps its full original label. -/
theorem groupByPrefix_strip_fallback_cex :
    groupByPrefix 3 3 frontendXInput = some frontendXOutput ∧
    OrgNode.keys (lookupNode frontendXOutput.entries "Frontend") =
      ["Development", "Design", "FrontendX"] ∧
    trimStr (ofChars (("FrontendX" : String).data.drop ("Frontend" : String).length)) = "X" ∧
    "X" ∉ OrgNode.keys (lookupNode frontendXOutput.entries "Frontend") :=
  ⟨rfl, rfl, rfl, by decide⟩

/-- C6 (amended): a sibling set with fewer than `minGroupSize` entries is
returned unchanged, for every fuel, threshold and tree; every registered
prefix group has at least `minGroupSize` members, so two siblings sharing
a prefix never form a group on their own; every child key synthesized for
a group is the `stripChildName` renaming of a member — the prefix stripped
and trimmed, except that a member whose stripped remainder is shorter than
2 characters keeps its full original label; concretely, two "Frontend"
sharers next to "Backend Services" pass through unchanged, the four AIML
siblings group under "AIML" with every child stripped, and the FrontendX
family groups under "Frontend" with "FrontendX" kept whole. -/
theorem groupByPrefix_threshold :
    (∀ (fuel minGroupSize : Nat) (t : OrgNode), t.entries.length < minGroupSize →
        groupByPrefix (fuel + 1) minGroupSize t = some t) ∧
    (∀ (keys : List String) (minGroupSize : Nat) (q : String × List String),
        q ∈ (buildGroups keys minGroupSize).1 → minGroupSize ≤ q.2.length) ∧
    (∀ (g : OrgNode → Option OrgNode) (entries : List (String × OrgNode)) (pfx : String)
        (group : List String) (acc res : List (String × OrgNode)),
        buildGroupedChildren g entries pfx group acc = some res →
        ∀ q ∈ res, q.1 ∈ acc.map Prod.fst ++ group.map (stripChildName pfx)) ∧
    groupByPrefix 2 3 (OrgNode.node
        [("Frontend Development", .node []), ("Frontend Design", .node []),
         ("Backend Services", .node [])]) =
      some (OrgNode.node
        [("Frontend Development", .node []), ("Frontend Design", .node []),
         ("Backend Services", .node [])]) ∧
    groupByPrefix 3 3 (OrgNode.node
        [("AIML Infrastructure Teams", .node []), ("AIML Data Platform", .node []),
         ("AIML Engineering Efficiency", .node []), ("AIML Search Infrastructure", .node [])]) =
      some (OrgNode.node
        [("AIML", OrgNode.node
            [("Infrastructure Teams", .node []), ("Data Platform", .node []),
             ("Engineering Efficiency", .node []), ("Search Infrastructure", .node [])])]) ∧
    groupByPrefix 3 3 frontendXInput = some frontendXOutput := by
  refine ⟨?_, buildGroups_min_size, buildGroupedChildren_labels, rfl, rfl, rfl⟩
  intro fuel minGroupSize t h
  cases t with
  | node es =>
    have h' : (es.map Prod.fst).length < minGroupSize := by
      simpa [OrgNode.entries] using h
    simp only [groupByPrefix, if_pos h']

/-- Witness for C6: the below-threshold clause at a one-entry sibling set,
the group-size clause at the registered "A/B" group, and the child-label
clause at the FrontendX fallback. -/
theorem groupByPrefix_threshold_witness :
    groupByPrefix 1 3 (OrgNode.node [("Engineering", OrgNode.node [])]) =
      some (OrgNode.node [("Engineering", OrgNode.node [])]) ∧
    3 ≤ slashGroup.length ∧
    "FrontendX" ∈ (([] : List (String × OrgNode)).map Prod.fst ++
      ["FrontendX"].map (stripChildName "Frontend")) :=
  ⟨groupByPrefix_threshold.1 0 3 (OrgNode.node [("Engineering", OrgNode.node [])]) (by decide),
   groupByPrefix_threshold.2.1 ["A/B", "A/B C", "A/B D"] 3 ("A/B", slashGroup) (by decide),
   groupByPrefix_threshold.2.2.1 (fun _ => some (OrgNode.node [])) [] "Frontend"
     ["FrontendX"] [] [("FrontendX", OrgNode.node [])] rfl
     ("FrontendX", OrgNode.node []) (List.Mem.head _)⟩

/-- C7: `chooseCanonicalName` is the head of the candidate list sorted by
descending length with ties broken by ascending lexicographic order; it is
therefore invariant under permutation of its input, and in particular the
two orderings of ["Frontend", "Backend"] agree. -/
theorem chooseCanonicalName_perm_invariant :
    (∀ names : List String,
        chooseCanonicalName names = (List.insertionSort CanonR names).headD "") ∧
    (∀ l₁ l₂ : List String, l₁.Perm l₂ →
        chooseCanonicalName l₁ = chooseCanonicalName l₂) ∧
    chooseCanonicalName ["Frontend", "Backend"] =
      chooseCanonicalName ["Backend", "Frontend"] := by
  refine ⟨chooseCanonicalName_eq_sortedHead, ?_, rfl⟩
  intro l₁ l₂ h
  rw [chooseCanonicalName_eq_sortedHead, chooseCanonicalName_eq_sortedHead]
  congr 1
  exact List.eq_of_perm_of_sorted
    ((List.perm_insertionSort CanonR l₁).trans (h.trans (List.perm_insertionSort CanonR l₂).symm))
    (List.sorted_insertionSort CanonR l₁) (List.sorted_insertionSort CanonR l₂)

/-- Witness for C7: permutation invariance applied to the concrete pair. -/
theorem chooseCanonicalName_perm_invariant_witness :
    chooseCanonicalName ["Frontend", "Backend"] =
      chooseCanonicalName ["Backend", "Frontend"] :=
  chooseCanonicalName_perm_invariant.2.1 ["Frontend", "Backend"] ["Backend", "Frontend"]
    (List.Perm.swap "Backend" "Frontend" [])

/-- Helper for C8: the cleaning loop ignores an entry whose key is
rejected, wherever it sits in the sibling list. -/
theorem cleanLoop_skipAux (p : OrgNode → Option OrgNode) (k : String) (v : OrgNode)
    (h : cleanTeamName k = none) :
    ∀ (l1 l2 acc : List (String × OrgNode)),
      cleanLoop p (l1 ++ (k, v) :: l2) acc = cleanLoop p (l1 ++ l2) acc := by
  intro l1
  induction l1 with
  | nil =>
    intro l2 acc
    simp only [List.nil_append, cleanLoop, h]
  | cons hd tl ih =>
    intro l2 acc
    obtain ⟨hk, hv⟩ := hd
    simp only [List.cons_append, cleanLoop]
    cases hc : cleanTeamName hk with
    | none => exact ih l2 acc
    | some ck =>
      cases hp : p hv with
      | none => rfl
      | some cc => exact ih l2 _

/-- C8: a top-level entry whose raw label is rejected by `cleanTeamName`
is dropped entirely: the pipeline's result on the tree equals its result
on the tree with that entry removed (so no part of the rejected subtree is
ever reattached). -/
theorem processOrgData_drops_rejected (fuel : Nat)
    (l1 l2 : List (String × OrgNode)) (k : String) (v : OrgNode)
    (h : cleanTeamName k = none) :
    processOrgData fuel (OrgNode.node (l1 ++ (k, v) :: l2)) =
      processOrgData fuel (OrgNode.node (l1 ++ l2)) := by
  cases fuel with
  | zero => rfl
  | succ n =>
    simp only [processOrgData]
    rw [cleanLoop_skipAux (processOrgData n) k v h l1 l2 []]

/-- Witness for C8: dropping the rejected label "s" together with its
subtree leaves the result of the pipeline unchanged. -/
theorem processOrgData_drops_rejected_witness :
    processOrgData 3 (OrgNode.node
        [("s", OrgNode.node [("Engineering", OrgNode.node [])]),
         ("Valid Team", OrgNode.node [])]) =
      processOrgData 3 (OrgNode.node [("Valid Team", OrgNode.node [])]) :=
  processOrgData_drops_rejected 3 [] [("Valid Team", OrgNode.node [])] "s"
    (OrgNode.node [("Engineering", OrgNode.node [])]) rfl

/-- Helper for C9: when every key of the sibling list is rejected, the
cleaning loop returns its accumulator unchanged. -/
theorem cleanLoop_all_rejected (p : OrgNode → Option OrgNode) :
    ∀ (es acc : List (String × OrgNode)),
      (∀ q ∈ es, cleanTeamName q.1 = none) → cleanLoop p es acc = some acc := by
  intro es
  induction es with
  | nil => intro acc _; rfl
  | cons hd tl ih =>
    intro acc h
    obtain ⟨hk, hv⟩ := hd
    have h1 : cleanTeamName hk = none := h (hk, hv) (by simp)
    simp only [cleanLoop, h1]
    exact ih acc (fun q hq => h q (by simp [hq]))

/-- C9: the empty mapping maps to the empty mapping, and more generally a
tree all of whose top-level keys are rejected still yields the empty
mapping (a value, never null/absent). -/
theorem processOrgData_never_null :
    (∀ fuel : Nat, processOrgData (fuel + 1) (OrgNode.node []) = some (OrgNode.node [])) ∧
    (∀ (fuel : Nat) (t : OrgNode), (∀ q ∈ t.entries, cleanTeamName q.1 = none) →
        processOrgData (fuel + 1) t = some (OrgNode.node [])) := by
  constructor
  · intro fuel; rfl
  · intro fuel t h
    cases t with
    | node es =>
      simp only [processOrgData]
      rw [cleanLoop_all_rejected (processOrgData fuel) es [] h]
      rfl

/-- Witness for C9: a tree with only junk keys produces the empty mapping. -/
theorem processOrgData_never_null_witness :
    processOrgData 1 (OrgNode.node
        [("s", OrgNode.node [("Engineering", OrgNode.node [])]),
         (")", OrgNode.node [])]) = some (OrgNode.node []) :=
  processOrgData_never_null.2 0
    (OrgNode.node
      [("s", OrgNode.node [("Engineering", OrgNode.node [])]),
       (")", OrgNode.node [])]) (by decide)

/-- C10: `areNamesSimilar` is symmetric in its two arguments. -/
theorem areNamesSimilar_symm (a b : String) :
    areNamesSimilar a b = areNamesSimilar b a := by
  simp only [areNamesSimilar]
  by_cases h : normalizeForComparison a = normalizeForComparison b
  · rw [if_pos h, if_pos h.symm]
  · have h' : ¬ normalizeForComparison b = normalizeForComparison a :=
      fun hh => h hh.symm
    rw [if_neg h, if_neg h']
    rw [Bool.or_comm]
    rw [min_comm ((normalizeForComparison a).length) ((normalizeForComparison b).length)]
    rw [max_comm ((normalizeForComparison a).length) ((normalizeForComparison b).length)]
